import Mathlib

/-!
# Verification of `elm-json`'s `new` command core logic

A shallow embedding, in Lean 4, of the validation and document-construction
logic of `src/lib/cli/new.rs` (the `elm json new` wizard): the
package-name / summary / license validators, the SPDX allow-list, and the
manifest construction and rendering, together with theorems checking the
natural-language specification against it.

Rust strings are modelled as lists of Unicode scalar values (`List Char`);
Rust's `str::len` (a UTF-8 byte count) is modelled explicitly via
`Char.utf8Size`, and `str::chars` is the list itself.  Fallible Rust code
(`Result<T, Error>`) becomes `Except String T` carrying the exact `bail!` /
`format_err!` message; a possible panic (`unwrap`) is modelled by an
`Option` layer, `none` meaning a panic.
-/

namespace ElmJsonNew

/-- Rust strings (sequences of Unicode scalar values). -/
abbrev RStr := List Char

/-! ## Character-class primitives (Rust `char` methods) -/

/-- Rust `char::is_whitespace`: the Unicode `White_Space` property
(a fixed, finite set of code points). -/
def isRustWhitespace (c : Char) : Bool :=
  c.toNat ∈ [0x09, 0x0A, 0x0B, 0x0C, 0x0D, 0x20, 0x85, 0xA0, 0x1680,
    0x2000, 0x2001, 0x2002, 0x2003, 0x2004, 0x2005, 0x2006, 0x2007,
    0x2008, 0x2009, 0x200A, 0x2028, 0x2029, 0x202F, 0x205F, 0x3000]

/-- Rust `char::is_ascii_lowercase`: `'a'..='z'`. -/
def isAsciiLowercase (c : Char) : Bool :=
  0x61 ≤ c.toNat && c.toNat ≤ 0x7A

/-- Rust `char::is_ascii_uppercase`: `'A'..='Z'`. -/
def isAsciiUppercase (c : Char) : Bool :=
  0x41 ≤ c.toNat && c.toNat ≤ 0x5A

/-- Rust `char::is_digit(10)`: an ASCII decimal digit `'0'..='9'`. -/
def isDigit10 (c : Char) : Bool :=
  0x30 ≤ c.toNat && c.toNat ≤ 0x39

/-- Rust `char::is_ascii_alphanumeric`. -/
def isAsciiAlphanumeric (c : Char) : Bool :=
  isAsciiLowercase c || isAsciiUppercase c || isDigit10 c

/-! ## `str` primitives used by the validators -/

/-- Rust `str::trim`: drop leading and trailing Unicode whitespace. -/
def rustTrim (s : RStr) : RStr :=
  ((s.dropWhile isRustWhitespace).reverse.dropWhile isRustWhitespace).reverse

/-- The number of bytes of the UTF-8 encoding of a scalar value
(Rust `char::len_utf8`). -/
def utf8Size (c : Char) : Nat :=
  if c.toNat < 0x80 then 1
  else if c.toNat < 0x800 then 2
  else if c.toNat < 0x10000 then 3
  else 4

/-- Rust `str::len`: the length of the string in UTF-8 bytes. -/
def rustLen (s : RStr) : Nat :=
  (s.map utf8Size).sum

/-- Rust `str::split(sep)` collected into a vector: splitting the empty
string gives `[[]]`, and every separator starts a new (possibly empty)
segment. -/
def splitCh (sep : Char) : RStr → List RStr
  | [] => [[]]
  | c :: rest =>
    if c = sep then [] :: splitCh sep rest
    else
      match splitCh sep rest with
      | [] => [[c]]
      | s :: ss => (c :: s) :: ss

/-- Rust `str::starts_with(c)` for a single character. -/
def startsWithCh (c : Char) (s : RStr) : Bool :=
  match s with
  | [] => false
  | x :: _ => x = c

/-- Rust `str::ends_with(c)` for a single character. -/
def endsWithCh (c : Char) (s : RStr) : Bool :=
  startsWithCh c s.reverse

/-- Rust `str::contains("--")`: some two adjacent characters are both `'-'`. -/
def containsDoubleDash : RStr → Bool
  | [] => false
  | [_] => false
  | a :: b :: rest => (a = '-' && b = '-') || containsDoubleDash (b :: rest)

/-- Rust `Result::and`: keep the first error, otherwise the second result. -/
def resAnd (r : Except String Unit) (other : Except String β) : Except String β :=
  match r with
  | .error e => .error e
  | .ok _ => other

/-! ## The validators (`src/lib/cli/new.rs`) -/

/-- `validate_summary` from `new.rs`: rejects a summary whose UTF-8 byte
length (`summary.len()`) exceeds 80, otherwise returns it unchanged. -/
def validate_summary (summary : RStr) : Except String RStr :=
  if rustLen summary > 80 then
    .error "Summary may not be over 80 characters long."
  else
    .ok summary

/-- `validate_author` from `new.rs`: the sequential rule checks on the
author segment, each failing with its own message. -/
def validate_author (author : RStr) : Except String Unit :=
  if author.isEmpty then
    .error "Author name may not be empty. A valid package name looks like \"author/project\"."
  else if startsWithCh '-' author then
    .error "Author name may not start with a dash. Please use your github username!"
  else if endsWithCh '-' author then
    .error "Author name may not end with a dash. Please user your github username!"
  else if containsDoubleDash author then
    .error "Author name may not contain a double dash. Please use your github username!"
  else if rustLen author > 39 then
    .error "Author name may not be over 39 characters long. Please use your github username!"
  else if !(author.all fun c => isAsciiAlphanumeric c || c = '-') then
    .error "Author name may only contain ascii alphanumeric characters."
  else
    .ok ()

/-- `validate_project` from `new.rs`.  The final rule reads
`project.chars().nth(0).unwrap()`; the `unwrap` is modelled by the `Option`
layer, `none` standing for a panic. -/
def validate_project (project : RStr) : Option (Except String Unit) :=
  if project.isEmpty then
    some (.error "Project name maybe not be empty. A valid package name looks like \"author/project\".")
  else if containsDoubleDash project then
    some (.error "Project name cannot contain a double dash.")
  else if endsWithCh '-' project then
    some (.error "Project name cannot end with a dash.")
  else if !(project.all fun x => isAsciiLowercase x || isDigit10 x || x = '-') then
    some (.error "Project name may only contains lowercase letters, digits and dashes.")
  else
    match project.head? with
    | none => none
    | some c =>
      if !isAsciiLowercase c then
        some (.error "Project name must start with a letter")
      else
        some (.ok ())

/-- `validate_package_name` from `new.rs`: trim, split on `'/'`; on a
two-segment split run `validate_author(author).and(validate_project(project))`
(both evaluated eagerly, the author's error taking precedence) and map a
success to the trimmed name.  The `Option` layer propagates a (never
occurring) panic of `validate_project`. -/
def validate_package_name (name : RStr) : Option (Except String RStr) :=
  match splitCh '/' (rustTrim name) with
  | [author, project] =>
    (validate_project project).map fun vp =>
      Except.map (fun _ => rustTrim name) (resAnd (validate_author author) vp)
  | _ => some (.error "A valid package name look like \"author/project\"")

/-! ## License selection (`create_package`, `APPROVED_LICENSES`) -/

/-- `APPROVED_LICENSES` from `new.rs`: the fixed allow-list of SPDX
identifiers. -/
def APPROVED_LICENSES : List String :=
  ["AFL-1.1", "AFL-1.2", "AFL-2.0", "AFL-2.1", "AFL-3.0", "APL-1.0",
   "Apache-1.1", "Apache-2.0", "APSL-1.0", "APSL-1.1", "APSL-1.2",
   "APSL-2.0", "Artistic-1.0", "Artistic-1.0-Perl", "Artistic-1.0-cl8",
   "Artistic-2.0", "AAL", "BSL-1.0", "BSD-2-Clause", "BSD-3-Clause",
   "0BSD", "CECILL-2.1", "CNRI-Python", "CDDL-1.0", "CPAL-1.0", "CPL-1.0",
   "CATOSL-1.1", "CUA-OPL-1.0", "EPL-1.0", "ECL-1.0", "ECL-2.0", "EFL-1.0",
   "EFL-2.0", "Entessa", "EUDatagrid", "EUPL-1.1", "Fair", "Frameworx-1.0",
   "AGPL-3.0", "GPL-2.0", "GPL-3.0", "LGPL-2.1", "LGPL-3.0", "LGPL-2.0",
   "HPND", "IPL-1.0", "Intel", "IPA", "ISC", "LPPL-1.3c", "LiLiQ-P-1.1",
   "LiLiQ-Rplus-1.1", "LiLiQ-R-1.1", "LPL-1.02", "LPL-1.0", "MS-PL",
   "MS-RL", "MirOS", "MIT", "Motosoto", "MPL-1.0", "MPL-1.1", "MPL-2.0",
   "MPL-2.0-no-copyleft-exception", "Multics", "NASA-1.3", "Naumen",
   "NGPL", "Nokia", "NPOSL-3.0", "NTP", "OCLC-2.0", "OGTSL", "OSL-1.0",
   "OSL-2.0", "OSL-2.1", "OSL-3.0", "OSET-PL-2.1", "PHP-3.0", "PostgreSQL",
   "Python-2.0", "QPL-1.0", "RPSL-1.0", "RPL-1.1", "RPL-1.5", "RSCPL",
   "OFL-1.1", "SimPL-2.0", "Sleepycat", "SISSL", "SPL-1.0", "Watcom-1.0",
   "UPL-1.0", "NCSA", "VSL-1.0", "W3C", "Xnet", "Zlib", "ZPL-2.0"]

/-- The free-text license validator: the closure passed to `until_valid` in
`create_package` for the `"other..."` menu choice
(`if APPROVED_LICENSES.contains(&&*input) { Ok(input) } else { Err(...) }`). -/
def validate_license (input : String) : Except String String :=
  if APPROVED_LICENSES.contains input then
    .ok input
  else
    .error "Please pick a valid license"

/-- The license menu offered by `create_package`. -/
def license_options : List String :=
  ["BSD-3-Clause", "MIT", "other..."]

/-- The license-selection logic of `create_package` (lines 45–57): a direct
menu choice is stored verbatim; choosing `"other..."` accepts a free-text
entry only once `validate_license` succeeds on it (`none` models the retry
loop not yet having accepted a value). -/
def selectLicense (choice : String) (input : String) : Option String :=
  if choice = "other..." then
    match validate_license input with
    | .ok v => some v
    | .error _ => none
  else
    some choice

/-! ## Manifest document model and rendering

The `Project` / `Package` / `Application` types and their `Serialize`
implementations live in `src/lib/project.rs`, which is not part of the
sources here; they are modelled from the spec (§3, §4.2, §6). -/

/-- A generic JSON value, as produced by the manifest serializer (only the
shapes the manifest uses: strings, arrays of strings, and objects with
ordered keys). -/
inductive Json where
  | jstr (s : String)
  | jarr (elems : List String)
  | jobj (fields : List (String × Json))

/-- Modelled from the spec: the `Package` manifest variant holds the
validated `name`, `summary` and `license` fields (§3); `Package::new`
stores them as given, performing no validation (§4.2). -/
structure Package where
  name : String
  summary : String
  license : String
deriving DecidableEq

/-- Modelled from the spec: the manifest sum type with its two variants
(§3); the `Application` variant has no user-supplied fields. -/
inductive Project where
  | application : Project
  | package : Package → Project
deriving DecidableEq

/-- Modelled from the spec: the ecosystem-required `Package` fields that
follow `license`, with fixed default values (§6 — their exact values are
out of core scope; only their presence and position matter). -/
def packageRemainingFields : List (String × Json) :=
  [("version", .jstr "1.0.0"),
   ("exposed-modules", .jarr []),
   ("elm-version", .jstr "0.19.0 <= v < 0.20.0"),
   ("dependencies", .jobj []),
   ("test-dependencies", .jobj [])]

/-- Modelled from the spec: the fixed default internal structure of the
`Application` variant (§6 — source directories and empty dependency
tables; the exact remaining shape is a fixed constant). -/
def applicationFields : List (String × Json) :=
  [("type", .jstr "application"),
   ("source-directories", .jarr ["src"]),
   ("elm-version", .jstr "0.19.0"),
   ("dependencies", .jobj [("direct", .jobj []), ("indirect", .jobj [])]),
   ("test-dependencies", .jobj [("direct", .jobj []), ("indirect", .jobj [])])]

/-- Modelled from the spec: serializing a manifest to a generic JSON
object — a `Package` serializes with keys in the fixed schema order
`type, name, summary, license, …` and `"type": "package"` (§6), an
`Application` to its fixed default shape. -/
def projectToJson : Project → Json
  | .application => .jobj applicationFields
  | .package p =>
    .jobj (("type", .jstr "package") ::
           ("name", .jstr p.name) ::
           ("summary", .jstr p.summary) ::
           ("license", .jstr p.license) ::
           packageRemainingFields)

/-- The top-level keys of a JSON object (empty for non-objects). -/
def jsonKeys : Json → List String
  | .jobj fields => fields.map Prod.fst
  | _ => []

/-- Look up a top-level key of a JSON object. -/
def jsonLookup (k : String) : Json → Option Json
  | .jobj fields => (fields.find? fun f => f.1 = k).map Prod.snd
  | _ => none

/-- `n` spaces, the indentation of `depth` nesting levels being
`nspaces (4 * depth)` (the serializer is built with
`PrettyFormatter::with_indent(b"    ")`). -/
def nspaces (n : Nat) : String :=
  String.mk (List.replicate n ' ')

/-- JSON string escaping as the serializer performs it: `"` and `\`
escaped, control characters as `\n`, `\r`, `\t`, `\b`, `\f` or `\u00XX`. -/
def jsonEscapeChar (c : Char) : String :=
  if c = '"' then "\\\""
  else if c = '\\' then "\\\\"
  else if c = '\n' then "\\n"
  else if c = '\r' then "\\r"
  else if c = '\t' then "\\t"
  else if c.toNat = 0x08 then "\\b"
  else if c.toNat = 0x0C then "\\f"
  else if c.toNat < 0x20 then
    "\\u00" ++ String.mk [(Nat.digitChar (c.toNat / 16)), (Nat.digitChar (c.toNat % 16))]
  else String.mk [c]

/-- A JSON string literal with quotes and escapes. -/
def jquote (s : String) : String :=
  "\"" ++ String.join (s.data.map jsonEscapeChar) ++ "\""

mutual

/-- Modelled from the spec: pretty-printing a JSON value at nesting depth
`d` with four spaces per level, matching
`serde_json::ser::PrettyFormatter::with_indent(b"    ")`: empty objects
and arrays print inline, non-empty ones one entry per line, keys followed
by `": "`, no trailing newline (§6, `create_elm_json`). -/
def renderJson (d : Nat) : Json → String
  | .jstr s => jquote s
  | .jarr [] => "[]"
  | .jarr (e :: es) =>
    "[\n" ++ String.intercalate ",\n"
      ((e :: es).map fun x => nspaces (4 * (d + 1)) ++ jquote x) ++
    "\n" ++ nspaces (4 * d) ++ "]"
  | .jobj [] => "\x7b\x7d"
  | .jobj (f :: fs) =>
    "\x7b\n" ++ renderFields d (f :: fs) ++ "\n" ++ nspaces (4 * d) ++ "\x7d"

/-- Pretty-printing the fields of a non-empty object at depth `d`,
one per line, comma-separated. -/
def renderFields (d : Nat) : List (String × Json) → String
  | [] => ""
  | [(k, v)] => nspaces (4 * (d + 1)) ++ jquote k ++ ": " ++ renderJson (d + 1) v
  | (k, v) :: f :: fs =>
    nspaces (4 * (d + 1)) ++ jquote k ++ ": " ++ renderJson (d + 1) v ++ ",\n" ++
    renderFields d (f :: fs)

end

/-- Rendering a manifest to its canonical byte sequence (`create_elm_json`
serializes the `Project` with the four-space pretty formatter). -/
def renderProject (info : Project) : String :=
  renderJson 0 (projectToJson info)

/-- `create_elm_json` from `new.rs`, with the file system made explicit:
the target path's current content is `fs` (`none` when no file exists).
The file is opened with `.write(true).create_new(true)`, which fails when
the file already exists, leaving it untouched; otherwise the serialized
manifest is written. Returns the call's result and the path's new content. -/
def create_elm_json (fs : Option String) (info : Project) :
    Except String Unit × Option String :=
  match fs with
  | some existing => (.error "File exists (os error 17)", some existing)
  | none => (.ok (), some (renderProject info))

/-! ## Spec-side definitions

These follow the spec's words (§4.1, §7), to be compared with the
definitions taken from the source. -/

/-- An ASCII string: every scalar value below 128. -/
def allAscii (s : RStr) : Bool :=
  s.all fun c => c.toNat < 128

/-- Spec-side (§4.1 / C1): the author segment is non-empty, does not start
or end with `'-'`, contains no `"--"`, has length at most 39, and consists
only of ASCII alphanumeric characters or `'-'`. -/
def spec_authorOk (a : RStr) : Bool :=
  !a.isEmpty && !startsWithCh '-' a && !endsWithCh '-' a &&
  !containsDoubleDash a && a.length ≤ 39 &&
  (a.all fun c => isAsciiAlphanumeric c || c = '-')

/-- Spec-side (§4.1 / C1): the project segment is non-empty, contains no
`"--"`, does not end with `'-'`, consists only of ASCII lowercase letters,
ASCII digits, or `'-'`, and starts with an ASCII lowercase letter. -/
def spec_projectOk (p : RStr) : Bool :=
  !p.isEmpty && !containsDoubleDash p && !endsWithCh '-' p &&
  (p.all fun c => isAsciiLowercase c || isDigit10 c || c = '-') &&
  (match p.head? with
   | some c => isAsciiLowercase c
   | none => false)

/-- Spec-side (§4.1 / C1): after trimming, the name splits on `'/'` into
exactly two non-empty segments, the author and the project, each
satisfying its rules. -/
def spec_packageNameOk (s : RStr) : Bool :=
  match splitCh '/' (rustTrim s) with
  | [a, p] => !a.isEmpty && !p.isEmpty && spec_authorOk a && spec_projectOk p
  | _ => false

/-- Spec-side (§7 / C7): the author rules in validation order, each paired
with its error message. -/
def authorRules : List ((RStr → Bool) × String) :=
  [(fun a => a.isEmpty,
    "Author name may not be empty. A valid package name looks like \"author/project\"."),
   (fun a => startsWithCh '-' a,
    "Author name may not start with a dash. Please use your github username!"),
   (fun a => endsWithCh '-' a,
    "Author name may not end with a dash. Please user your github username!"),
   (fun a => containsDoubleDash a,
    "Author name may not contain a double dash. Please use your github username!"),
   (fun a => rustLen a > 39,
    "Author name may not be over 39 characters long. Please use your github username!"),
   (fun a => !(a.all fun c => isAsciiAlphanumeric c || c = '-'),
    "Author name may only contain ascii alphanumeric characters.")]

/-- Spec-side (§7 / C7): the project rules in validation order, each
paired with its error message. -/
def projectRules : List ((RStr → Bool) × String) :=
  [(fun p => p.isEmpty,
    "Project name maybe not be empty. A valid package name looks like \"author/project\"."),
   (fun p => containsDoubleDash p,
    "Project name cannot contain a double dash."),
   (fun p => endsWithCh '-' p,
    "Project name cannot end with a dash."),
   (fun p => !(p.all fun x => isAsciiLowercase x || isDigit10 x || x = '-'),
    "Project name may only contains lowercase letters, digits and dashes."),
   (fun p => match p.head? with
             | some c => !isAsciiLowercase c
             | none => false,
    "Project name must start with a letter")]

/-- The message of the first violated rule of a list, if any. -/
def firstViolation (rules : List ((RStr → Bool) × String)) (s : RStr) :
    Option String :=
  (rules.find? fun r => r.1 s).map Prod.snd

/-- Spec-side (§7 / C7): the single error a failing two-segment name
surfaces — all author rules are checked before any project rule, and the
first violated rule's message wins. -/
def firstNameViolation (a p : RStr) : Option String :=
  (firstViolation authorRules a).orElse fun _ => firstViolation projectRules p

/-! ## Helper lemmas -/

theorem utf8Size_eq_one {c : Char} (h : c.toNat < 128) : utf8Size c = 1 := by
  simp [utf8Size, h]

theorem rustLen_eq_length {s : RStr} (h : ∀ c ∈ s, c.toNat < 128) :
    rustLen s = s.length := by
  induction s with
  | nil => rfl
  | cons c cs ih =>
    have hc : c.toNat < 128 := h c (List.mem_cons_self c cs)
    have hcs : ∀ x ∈ cs, x.toNat < 128 := fun x hx => h x (List.mem_cons_of_mem c hx)
    have hrec := ih hcs
    simp only [rustLen, List.map_cons, List.sum_cons, utf8Size_eq_one hc,
      List.length_cons] at hrec ⊢
    omega

theorem mem_of_mem_dropWhile {p : Char → Bool} {l : RStr} {c : Char}
    (h : c ∈ l.dropWhile p) : c ∈ l :=
  (List.dropWhile_sublist p).mem h

theorem mem_of_mem_rustTrim {s : RStr} {c : Char} (h : c ∈ rustTrim s) : c ∈ s := by
  unfold rustTrim at h
  rw [List.mem_reverse] at h
  have h1 := mem_of_mem_dropWhile h
  rw [List.mem_reverse] at h1
  exact mem_of_mem_dropWhile h1

theorem mem_of_mem_splitCh {sep : Char} :
    ∀ {l part : RStr} {c : Char}, part ∈ splitCh sep l → c ∈ part → c ∈ l := by
  intro l
  induction l with
  | nil =>
    intro part c hpart hc
    simp [splitCh] at hpart
    subst hpart
    simp at hc
  | cons x xs ih =>
    intro part c hpart hc
    by_cases hx : x = sep
    · simp [splitCh, hx] at hpart
      rcases hpart with h | h
      · subst h; simp at hc
      · exact List.mem_cons_of_mem x (ih h hc)
    · simp only [splitCh, if_neg hx] at hpart
      rcases hrec : splitCh sep xs with nil | ⟨s, ss⟩
      · rw [hrec] at hpart
        simp at hpart
        subst hpart
        simp at hc
        simp [hc]
      · rw [hrec] at hpart
        rcases List.mem_cons.mp hpart with h | h
        · subst h
          rcases List.mem_cons.mp hc with h | h
          · simp [h]
          · exact List.mem_cons_of_mem x
              (ih (hrec ▸ List.mem_cons_self s ss) h)
        · exact List.mem_cons_of_mem x
            (ih (hrec ▸ List.mem_cons_of_mem s h) hc)

theorem validate_project_isSome (p : RStr) : (validate_project p).isSome := by
  cases p with
  | nil => simp [validate_project]
  | cons c cs =>
    simp only [validate_project, List.head?_cons]
    split_ifs <;> simp

theorem validate_package_name_eq {s a p : RStr} {vp : Except String Unit}
    (hsplit : splitCh '/' (rustTrim s) = [a, p])
    (hvp : validate_project p = some vp) :
    validate_package_name s =
      some (Except.map (fun _ => rustTrim s) (resAnd (validate_author a) vp)) := by
  simp [validate_package_name, hsplit, hvp]

theorem mapResAnd_ok_iff {va vp : Except String Unit} {t : RStr} :
    (∃ v, Except.map (fun _ => t) (resAnd va vp) = Except.ok v) ↔
      va = .ok () ∧ vp = .ok () := by
  cases va <;> cases vp <;> simp [resAnd, Except.map]

theorem validate_author_ok_iff_conds {a : RStr} :
    validate_author a = .ok () ↔
      (a.isEmpty = false ∧ startsWithCh '-' a = false ∧ endsWithCh '-' a = false ∧
       containsDoubleDash a = false ∧ rustLen a ≤ 39 ∧
       (a.all fun c => isAsciiAlphanumeric c || c = '-') = true) := by
  unfold validate_author
  split_ifs with h1 h2 h3 h4 h5 h6 <;> simp_all [Nat.not_lt, Nat.lt_iff_add_one_le]
  intro x hx
  cases hax : isAsciiAlphanumeric x
  · exact Or.inr (h6 x hx hax)
  · exact Or.inl rfl

theorem spec_authorOk_iff {a : RStr} :
    spec_authorOk a = true ↔
      (a.isEmpty = false ∧ startsWithCh '-' a = false ∧ endsWithCh '-' a = false ∧
       containsDoubleDash a = false ∧ a.length ≤ 39 ∧
       (a.all fun c => isAsciiAlphanumeric c || c = '-') = true) := by
  simp [spec_authorOk, and_assoc]

theorem validate_project_ok_iff_conds {p : RStr} :
    validate_project p = some (.ok ()) ↔
      (p.isEmpty = false ∧ containsDoubleDash p = false ∧ endsWithCh '-' p = false ∧
       (p.all fun x => isAsciiLowercase x || isDigit10 x || x = '-') = true ∧
       (match p.head? with
        | some c => isAsciiLowercase c
        | none => false) = true) := by
  cases p with
  | nil => simp [validate_project]
  | cons c cs =>
    simp only [validate_project, List.head?_cons]
    split_ifs with h1 h2 h3 h4 <;> simp_all
    · intro hc hcs
      rcases h4 with ⟨⟨hl, hd⟩, hdash⟩ | ⟨x, hx, ⟨hl, hd⟩, hdash⟩
      · rcases hc with (hc | hc) | hc
        · simp [hc] at hl
        · simp [hc] at hd
        · exact absurd hc hdash
      · rcases hcs x hx with (hx2 | hx2) | hx2
        · simp [hx2] at hl
        · simp [hx2] at hd
        · exact absurd hx2 hdash
    · intro x hx
      cases hlx : isAsciiLowercase x
      · cases hdx : isDigit10 x
        · exact Or.inr (h4 x hx hlx hdx)
        · exact Or.inl (Or.inr rfl)
      · exact Or.inl (Or.inl rfl)

theorem spec_projectOk_iff {p : RStr} :
    spec_projectOk p = true ↔
      (p.isEmpty = false ∧ containsDoubleDash p = false ∧ endsWithCh '-' p = false ∧
       (p.all fun x => isAsciiLowercase x || isDigit10 x || x = '-') = true ∧
       (match p.head? with
        | some c => isAsciiLowercase c
        | none => false) = true) := by
  simp [spec_projectOk, and_assoc]

theorem validate_author_ok_iff {a : RStr} (h : ∀ c ∈ a, c.toNat < 128) :
    validate_author a = .ok () ↔ spec_authorOk a = true := by
  rw [validate_author_ok_iff_conds, spec_authorOk_iff, rustLen_eq_length h]

theorem validate_project_ok_iff {p : RStr} :
    validate_project p = some (.ok ()) ↔ spec_projectOk p = true := by
  rw [validate_project_ok_iff_conds, spec_projectOk_iff]

theorem validate_author_eq_firstViolation (a : RStr) :
    validate_author a =
      match firstViolation authorRules a with
      | some e => Except.error e
      | none => Except.ok () := by
  unfold validate_author firstViolation authorRules
  cases h1 : a.isEmpty <;>
    cases h2 : startsWithCh '-' a <;>
      cases h3 : endsWithCh '-' a <;>
        cases h4 : containsDoubleDash a <;>
          by_cases h5 : rustLen a > 39 <;>
            cases h6 : a.all (fun c => isAsciiAlphanumeric c || c = '-') <;>
              simp [List.find?, h1, h2, h3, h4, h5, h6]

theorem validate_project_eq_firstViolation (p : RStr) :
    validate_project p =
      some (match firstViolation projectRules p with
            | some e => Except.error e
            | none => Except.ok ()) := by
  unfold validate_project firstViolation projectRules
  cases hE : p.isEmpty
  case false =>
    obtain ⟨c, hc⟩ : ∃ c, p.head? = some c := by
      cases p with
      | nil => simp at hE
      | cons c cs => exact ⟨c, rfl⟩
    rw [hc]
    cases h2 : containsDoubleDash p <;>
      cases h3 : endsWithCh '-' p <;>
        cases h4 : p.all (fun x => isAsciiLowercase x || isDigit10 x || x = '-') <;>
          cases h5 : isAsciiLowercase c <;>
            simp [List.find?, hE, hc, h2, h3, h4, h5]
  case true =>
    simp [List.find?, hE]

/-! ## Claim theorems -/

/-- C10: `validate_project` never panics on any input string: the
`chars().nth(0).unwrap()` (modelled as the `Option` layer, `none` being a
panic) is reached only after the empty-string check has rejected empty
input, so the result is always `some`. -/
theorem validate_project_never_panics (p : RStr) :
    (validate_project p).isSome = true :=
  validate_project_isSome p

/-- C8: writing the finished manifest never overwrites an existing file:
with create-new semantics, `create_elm_json` on an occupied path returns an
error and leaves the existing content unchanged, and on a free path writes
the rendered manifest. -/
theorem create_elm_json_no_overwrite :
    (∀ (existing : String) (info : Project),
      create_elm_json (some existing) info =
        (Except.error "File exists (os error 17)", some existing)) ∧
    (∀ info : Project,
      create_elm_json none info = (Except.ok (), some (renderProject info))) :=
  ⟨fun _ _ => rfl, fun _ => rfl⟩

/-- C5: rendering equal `Manifest` values is deterministic: two renders of
the `Package` manifest built from the same name, summary and license are
byte-identical, and `renderProject` is a total function (it cannot fail). -/
theorem render_deterministic (n s l : String) (m₁ m₂ : Project)
    (h₁ : m₁ = Project.package ⟨n, s, l⟩) (h₂ : m₂ = Project.package ⟨n, s, l⟩) :
    renderProject m₁ = renderProject m₂ := by
  rw [h₁, h₂]

/-- Witness for C5 at a concrete manifest. -/
theorem render_deterministic_witness :
    renderProject (Project.package ⟨"alice/proj", "sum", "MIT"⟩) =
      renderProject (Project.package ⟨"alice/proj", "sum", "MIT"⟩) :=
  render_deterministic "alice/proj" "sum" "MIT" _ _ rfl rfl

/-- C2: the code checks the UTF-8 byte length, not the character count: a
summary of 41 characters (41 copies of `'é'`, 82 bytes) is rejected by
`validate_summary` although its character count is at most 80. -/
theorem validate_summary_rejects_41_chars :
    validate_summary (List.replicate 41 'é') =
      Except.error "Summary may not be over 80 characters long." ∧
    (List.replicate 41 'é').length = 41 ∧
    rustLen (List.replicate 41 'é') = 82 := by
  refine ⟨rfl, by decide, by decide⟩

/-- C3: the free-text license validation succeeds exactly on exact,
case-sensitive members of `APPROVED_LICENSES`, returning the input
unchanged; in particular it rejects `"mit"` and accepts `"MIT"`. -/
theorem validate_license_exact_member_iff :
    (∀ s r : String,
      validate_license s = .ok r ↔ (s ∈ APPROVED_LICENSES ∧ r = s)) ∧
    validate_license "mit" = .error "Please pick a valid license" ∧
    validate_license "MIT" = .ok "MIT" := by
  refine ⟨fun s r => ?_, rfl, rfl⟩
  unfold validate_license
  by_cases h : s ∈ APPROVED_LICENSES <;>
    simp [List.contains, h, eq_comm]

/-- Witness for C3 at a concrete license string. -/
theorem validate_license_exact_member_iff_witness :
    validate_license "Zlib" = .ok "Zlib" :=
  (validate_license_exact_member_iff.1 "Zlib" "Zlib").mpr ⟨by decide, rfl⟩

/-- C9: every license value stored into a constructed package manifest is a
member of `APPROVED_LICENSES`: the `"other..."` free-text path accepts only
exact members, and each directly selectable menu option is itself a member
even though the menu path stores the selection verbatim. -/
theorem stored_license_approved (choice input lic : String)
    (hc : choice ∈ license_options) (h : selectLicense choice input = some lic) :
    lic ∈ APPROVED_LICENSES := by
  simp [license_options] at hc
  rcases hc with rfl | rfl | rfl
  · simp [selectLicense] at h
    subst h
    decide
  · simp [selectLicense] at h
    subst h
    decide
  · by_cases hin : input ∈ APPROVED_LICENSES <;>
      simp [selectLicense, validate_license, List.contains, hin] at h
    subst h
    exact hin

/-- Witness for C9 at the `"MIT"` menu option. -/
theorem stored_license_approved_witness : "MIT" ∈ APPROVED_LICENSES :=
  stored_license_approved "MIT" "x" "MIT" (by decide) rfl

/-- C6: when `validate_package_name` succeeds, its return value is exactly
the input with surrounding whitespace trimmed, and the trimmed value still
splits on `'/'` into the same two author/project segments. -/
theorem validate_package_name_returns_trimmed {s v : RStr}
    (h : validate_package_name s = some (.ok v)) :
    v = rustTrim s ∧ ∃ a p, splitCh '/' (rustTrim s) = [a, p] := by
  rcases hsplit : splitCh '/' (rustTrim s) with _ | ⟨a, _ | ⟨p, _ | ⟨q, rest⟩⟩⟩
  · simp [validate_package_name, hsplit] at h
  · simp [validate_package_name, hsplit] at h
  · obtain ⟨vp, hvp⟩ := Option.isSome_iff_exists.mp (validate_project_isSome p)
    rw [validate_package_name_eq hsplit hvp] at h
    simp only [Option.some.injEq] at h
    refine ⟨?_, a, p, rfl⟩
    cases hva : validate_author a <;> cases hvpv : vp <;>
      simp [hva, hvpv, resAnd, Except.map] at h
    exact h.symm
  · simp [validate_package_name, hsplit] at h

/-- Witness for C6 at a concrete padded name. -/
theorem validate_package_name_returns_trimmed_witness :
    ("alice/proj".data = rustTrim "  alice/proj ".data) ∧
    ∃ a p, splitCh '/' (rustTrim "  alice/proj ".data) = [a, p] :=
  validate_package_name_returns_trimmed rfl

/-- C7: when `validate_package_name` fails after a successful two-segment
split, the single returned error is the first violated rule in validation
order, all author rules being checked before any project rule. -/
theorem first_violated_rule_error {s a p : RStr} {e : String}
    (hsplit : splitCh '/' (rustTrim s) = [a, p])
    (herr : validate_package_name s = some (.error e)) :
    firstNameViolation a p = some e := by
  have hvp := validate_project_eq_firstViolation p
  rw [validate_package_name_eq hsplit hvp] at herr
  simp only [Option.some.injEq] at herr
  have hva := validate_author_eq_firstViolation a
  unfold firstNameViolation
  cases hfa : firstViolation authorRules a with
  | some ea =>
    simp only [hfa] at hva
    rw [hva] at herr
    simp [resAnd, Except.map] at herr
    simp [Option.orElse, hfa, herr]
  | none =>
    simp only [hfa] at hva
    rw [hva] at herr
    cases hfp : firstViolation projectRules p with
    | some ep =>
      simp only [hfp] at herr
      simp [resAnd, Except.map] at herr
      simp [Option.orElse, hfa, hfp, herr]
    | none =>
      simp only [hfp] at herr
      simp [resAnd, Except.map] at herr

/-- Witness for C7 at a name whose author and project segments are both
invalid: the author's first violated rule (leading dash) is surfaced. -/
theorem first_violated_rule_error_witness :
    firstNameViolation "-foo".data "Bad-".data =
      some "Author name may not start with a dash. Please use your github username!" :=
  first_violated_rule_error (s := "-foo/Bad-".data) (by decide) rfl

/-- C1: for every ASCII string, `validate_package_name` succeeds iff the
trimmed input splits on `'/'` into exactly two non-empty segments whose
author and project parts satisfy the spec's character-class and boundary
rules. -/
theorem validate_package_name_iff_spec (s : RStr) (hA : allAscii s = true) :
    (∃ v, validate_package_name s = some (Except.ok v)) ↔
      spec_packageNameOk s = true := by
  have hch : ∀ c ∈ s, c.toNat < 128 := by
    simpa [allAscii, List.all_eq_true] using hA
  rcases hsplit : splitCh '/' (rustTrim s) with _ | ⟨a, _ | ⟨p, _ | ⟨q, rest⟩⟩⟩
  · simp [validate_package_name, spec_packageNameOk, hsplit]
  · simp [validate_package_name, spec_packageNameOk, hsplit]
  · obtain ⟨vp, hvp⟩ := Option.isSome_iff_exists.mp (validate_project_isSome p)
    rw [validate_package_name_eq hsplit hvp]
    have haA : ∀ c ∈ a, c.toNat < 128 := fun c hc =>
      hch c (mem_of_mem_rustTrim
        (mem_of_mem_splitCh (by rw [hsplit]; exact List.mem_cons_self a [p]) hc))
    have hproj : vp = .ok () ↔ spec_projectOk p = true := by
      rw [← validate_project_ok_iff, hvp, Option.some.injEq]
    simp only [Option.some.injEq, spec_packageNameOk, hsplit]
    rw [mapResAnd_ok_iff, validate_author_ok_iff haA, hproj]
    constructor
    · rintro ⟨ha, hp⟩
      have h1 := (spec_authorOk_iff.mp ha).1
      have h2 := (spec_projectOk_iff.mp hp).1
      simp [ha, hp, h1, h2]
    · intro hb
      simp only [Bool.and_eq_true] at hb
      exact ⟨hb.1.2, hb.2⟩
  · simp [validate_package_name, spec_packageNameOk, hsplit]

/-- Witness for C1 at a concrete valid ASCII name. -/
theorem validate_package_name_iff_spec_witness :
    ∃ v, validate_package_name "alice/my-project".data = some (Except.ok v) :=
  (validate_package_name_iff_spec "alice/my-project".data (by decide)).mpr (by decide)

set_option maxRecDepth 8192 in
/-- C4: the serialized `Package` document is a JSON object whose keys are,
in order, `type, name, summary, license` followed by the remaining fixed
fields, with `"type": "package"`; the `Application` document has
`"type": "application"` and no `name`, `summary` or `license` keys; both
render with four spaces of indentation per nesting level. -/
theorem rendered_manifest_shape :
    (∀ n s l : String,
      jsonKeys (projectToJson (.package ⟨n, s, l⟩)) =
        ["type", "name", "summary", "license", "version", "exposed-modules",
         "elm-version", "dependencies", "test-dependencies"] ∧
      jsonLookup "type" (projectToJson (.package ⟨n, s, l⟩)) =
        some (.jstr "package")) ∧
    (jsonKeys (projectToJson .application) =
       ["type", "source-directories", "elm-version", "dependencies",
        "test-dependencies"] ∧
     (jsonKeys (projectToJson .application)).contains "name" = false ∧
     (jsonKeys (projectToJson .application)).contains "summary" = false ∧
     (jsonKeys (projectToJson .application)).contains "license" = false ∧
     jsonLookup "type" (projectToJson .application) =
       some (.jstr "application")) ∧
    renderProject (.package ⟨"alice/proj", "sum", "MIT"⟩) =
      "\x7b\n    \"type\": \"package\",\n    \"name\": \"alice/proj\",\n    \"summary\": \"sum\",\n    \"license\": \"MIT\",\n    \"version\": \"1.0.0\",\n    \"exposed-modules\": [],\n    \"elm-version\": \"0.19.0 <= v < 0.20.0\",\n    \"dependencies\": \x7b\x7d,\n    \"test-dependencies\": \x7b\x7d\n\x7d" ∧
    renderProject .application =
      "\x7b\n    \"type\": \"application\",\n    \"source-directories\": [\n        \"src\"\n    ],\n    \"elm-version\": \"0.19.0\",\n    \"dependencies\": \x7b\n        \"direct\": \x7b\x7d,\n        \"indirect\": \x7b\x7d\n    \x7d,\n    \"test-dependencies\": \x7b\n        \"direct\": \x7b\x7d,\n        \"indirect\": \x7b\x7d\n    \x7d\n\x7d" := by
  refine ⟨fun n s l => ⟨rfl, rfl⟩, ⟨rfl, by decide, by decide, by decide, rfl⟩,
    ?_, ?_⟩
  · rfl
  · rfl

end ElmJsonNew
